import Mathlib

/-!
Shallow embedding of the Balk thin-walled-beam finite element solver
(src/balk: material.py, node.py, model.py, element.py, solver.py) and
proofs about the embedded operations.

Conventions:
* Python floats are modelled by exact arithmetic: `ℚ` where the source code
  only performs field operations, `ℝ` where square roots appear
  (`np.linalg.norm`).  Numeric literals such as `1e-6` are modelled by the
  exact decimal rational they denote.
* Fallible Python code (raising exceptions) is modelled with `Except String`.
  numpy floating-point operations never raise (division by zero emits a
  warning and produces non-finite values), while plain Python float division
  by zero raises `ZeroDivisionError`; the embedding reflects this difference.
-/

/-! ## Material (src/balk/material.py) -/

/-- Stored fields of a `Material` object. -/
structure MaterialData where
  E : ℚ
  G : ℚ
  nu : ℚ
  rho : ℚ
deriving DecidableEq, Repr

/-- Plain Python float division, as used in `Material.__init__`:
raises `ZeroDivisionError` when the denominator is zero. -/
def pydiv (a b : ℚ) : Except String ℚ :=
  if b = 0 then .error "ZeroDivisionError" else .ok (a / b)

/-- Embedding of `Material.__init__`: given `E`, optional `G`, optional `nu`
and `rho`, stores both elastic constants, deriving the missing one
(`nu = E/(2G) - 1` when only `G` is given, `G = E/(2(1+nu))` when only `nu`
is given), and raises `ValueError` when neither is given. -/
def Material.init (E : ℚ) (Gopt nuopt : Option ℚ) (rho : ℚ) :
    Except String MaterialData :=
  match Gopt, nuopt with
  | some G, some nu => .ok ⟨E, G, nu, rho⟩
  | some G, none => do
      let q ← pydiv E (2 * G)
      .ok ⟨E, G, q - 1, rho⟩
  | none, some nu => do
      let q ← pydiv E (2 * (1 + nu))
      .ok ⟨E, q, nu, rho⟩
  | none, none => .error "ValueError"

/-- Whether an `Except` computation returned normally. -/
def isOkE {α : Type} (e : Except String α) : Bool :=
  match e with
  | .ok _ => true
  | .error _ => false

/-! ## Model bookkeeping (src/balk/model.py)

`Model` keeps `self.nodes` (a dict from node id to `Node`, iterated in
insertion order) and `self.constraints` (a dict from node id to a set of
constrained local DOF indices).  For DOF-map and constraint claims only the
node ids matter, so a model is embedded as the insertion-ordered list of its
node ids together with the list of recorded `(node_id, dof_index)` pairs. -/

/-- Loop body of `Model._generate_dof_map`: walking the sorted node ids,
each node receives `list(range(current_dof, current_dof + 7))` and
`current_dof` advances by 7. -/
def assignDofs : List ℤ → ℕ → List (ℤ × List ℕ)
  | [], _ => []
  | nid :: rest, c => (nid, List.range' c 7) :: assignDofs rest (c + 7)

/-- Final value of `current_dof` after the `_generate_dof_map` loop
(stored as `self.total_dofs`). -/
def finalDofCount : List ℤ → ℕ → ℕ
  | [], c => c
  | _ :: rest, c => finalDofCount rest (c + 7)

/-- `sorted(self.nodes.keys())`: the node ids in ascending order
(Python's sort is stable; on the duplicate-free key list any stable
comparison sort agrees). -/
def sortedNodeIds (ids : List ℤ) : List ℤ :=
  ids.insertionSort (· ≤ ·)

/-- Embedding of `Model._generate_dof_map`: each node id is associated with
its block of 7 global DOF indices, in ascending id order. -/
def generateDofMap (ids : List ℤ) : List (ℤ × List ℕ) :=
  assignDofs (sortedNodeIds ids) 0

/-- `self.total_dofs` after DOF-map generation. -/
def totalDofs (ids : List ℤ) : ℕ :=
  finalDofCount (sortedNodeIds ids) 0

/-- The `dof_indices` attribute of the node `nid` after DOF-map generation
(every id present in the model receives an entry; absent ids defaulted). -/
def dofIndicesOf (ids : List ℤ) (nid : ℤ) : List ℕ :=
  ((generateDofMap ids).lookup nid).getD []

/-- Embedded model state used by the constraint bookkeeping claims:
insertion-ordered node ids and recorded `(node_id, dof_index)` pairs. -/
structure ModelB where
  nodes : List ℤ
  constraints : List (ℤ × ℤ)
deriving DecidableEq, Repr

/-- Embedding of `Model.add_constraint`: raises `ValueError` when the node id
is unknown, otherwise records the pair in the constraint set (set semantics:
adding an already-present pair is a no-op).  The `dof_index` value itself is
not validated. -/
def add_constraint (m : ModelB) (nid : ℤ) (d : ℤ) : Except String ModelB :=
  if nid ∈ m.nodes then
    .ok { m with constraints :=
      if (nid, d) ∈ m.constraints then m.constraints
      else m.constraints ++ [(nid, d)] }
  else .error "ValueError"

/-- Python list indexing `l[i]` on a list of naturals: a negative index is
counted from the end; an index outside `[-len(l), len(l))` raises
`IndexError`. -/
def pyListGet (l : List ℕ) (i : ℤ) : Except String ℕ :=
  if 0 ≤ (if i < 0 then i + l.length else i) ∧
      (if i < 0 then i + l.length else i) < (l.length : ℤ) then
    .ok (l.getD (if i < 0 then i + l.length else i).toNat 0)
  else .error "IndexError"

/-- Embedding of `Model.get_constrained_dofs`: for every recorded constraint
pair, index the node's `dof_indices` list with the recorded `dof_index`
(Python list indexing), then return the collected global indices sorted and
de-duplicated (`np.unique`). -/
def get_constrained_dofs (m : ModelB) : Except String (List ℕ) := do
  let raw ← m.constraints.mapM
    (fun p => pyListGet (dofIndicesOf m.nodes p.1) p.2)
  .ok ((raw.insertionSort (· ≤ ·)).dedup)

/-! ## Beam element local stiffness (src/balk/element.py, Beam3D.local_stiffness_matrix)

The 14x14 local stiffness matrix is assembled by scatter-adding four
decoupled sub-blocks (`k[np.ix_(idx, idx)] += block`) into an initially zero
matrix.  The definitions are generic over a field so that the same embedding
serves the rational-arithmetic claims and the real-valued element pipeline. -/

/-- `K[np.ix_(idx, idx)] += B`: scatter-add a small block into a matrix at
the given index list. -/
def scatterAdd {F : Type} [Field F] {m k : ℕ} (K : Matrix (Fin m) (Fin m) F)
    (idx : Fin k → Fin m) (B : Matrix (Fin k) (Fin k) F) :
    Matrix (Fin m) (Fin m) F :=
  Matrix.of fun i j => K i j + ∑ p, ∑ q, if idx p = i ∧ idx q = j then B p q else 0

/-- Axial block `(E*A/L) * [[1,-1],[-1,1]]`. -/
def k_axial {F : Type} [Field F] (E A L : F) : Matrix (Fin 2) (Fin 2) F :=
  (E * A / L) • !![1, -1; -1, 1]

/-- Pure warping block `(E*Cw/L^3) * (Hermite bending pattern)`. -/
def k_w_bending {F : Type} [Field F] (E Cw L : F) : Matrix (Fin 4) (Fin 4) F :=
  (E * Cw / L ^ 3) •
    !![12, 6*L, -12, 6*L;
       6*L, 4*L^2, -6*L, 2*L^2;
       -12, -6*L, 12, -6*L;
       6*L, 2*L^2, -6*L, 4*L^2]

/-- St. Venant torsion block `(G*J/(30*L)) * (string-stiffening pattern)`. -/
def k_w_sv {F : Type} [Field F] (G J L : F) : Matrix (Fin 4) (Fin 4) F :=
  (G * J / (30 * L)) •
    !![36, 3*L, -36, 3*L;
       3*L, 4*L^2, -3*L, -L^2;
       -36, -3*L, 36, -3*L;
       3*L, -L^2, -3*L, 4*L^2]

/-- Bending-about-z block `(E*Iz/L^3) * (canonical Euler-beam pattern)`. -/
def k_bending_z {F : Type} [Field F] (E Iz L : F) : Matrix (Fin 4) (Fin 4) F :=
  (E * Iz / L ^ 3) •
    !![12, 6*L, -12, 6*L;
       6*L, 4*L^2, -6*L, 2*L^2;
       -12, -6*L, 12, -6*L;
       6*L, 2*L^2, -6*L, 4*L^2]

/-- Bending-about-y block: the canonical pattern scaled by `E*Iy/L^3` with
the rotation-coupling signs flipped (`w' = -theta_y` convention). -/
def k_bending_y {F : Type} [Field F] (E Iy L : F) : Matrix (Fin 4) (Fin 4) F :=
  (E * Iy / L ^ 3) •
    !![12, -6*L, -12, -6*L;
       -6*L, 4*L^2, 6*L, 2*L^2;
       -12, 6*L, 12, 6*L;
       -6*L, 2*L^2, 6*L, 4*L^2]

/-- Embedding of `Beam3D.local_stiffness_matrix` as a function of the
material/section constants and the element length: start from the 14x14 zero
matrix and scatter-add the axial block at `[0,7]`, the torsion-plus-warping
block at `[3,6,10,13]`, the z-bending block at `[1,5,8,12]` and the
y-bending block at `[2,4,9,11]`. -/
def local_stiffness_matrix {F : Type} [Field F] (E G A Iy Iz J Cw L : F) :
    Matrix (Fin 14) (Fin 14) F :=
  scatterAdd
    (scatterAdd
      (scatterAdd
        (scatterAdd (0 : Matrix (Fin 14) (Fin 14) F)
          ![0, 7] (k_axial E A L))
        ![3, 6, 10, 13] (k_w_bending E Cw L + k_w_sv G J L))
      ![1, 5, 8, 12] (k_bending_z E Iz L))
    ![2, 4, 9, 11] (k_bending_y E Iy L)

/-! ## Beam element geometry (src/balk/element.py)

Node coordinates are 3-vectors of reals; `np.linalg.norm` forces the real
field here.  `Beam3D.direction_cosine_matrix` builds the local orthonormal
frame; its `if` cascade is embedded stage by stage. -/

/-- A 3-component coordinate/direction vector. -/
def Vec3 : Type := Fin 3 → ℝ

/-- Componentwise vector difference (`node2.coords - node1.coords`). -/
noncomputable def vsub3 (a b : Vec3) : Vec3 := fun i => a i - b i

/-- Componentwise division of a vector by a scalar (`v / L`). -/
noncomputable def sdiv3 (a : Vec3) (c : ℝ) : Vec3 := fun i => a i / c

/-- Euclidean dot product of 3-vectors. -/
noncomputable def dot3 (a b : Vec3) : ℝ := a 0 * b 0 + a 1 * b 1 + a 2 * b 2

/-- `np.linalg.norm` of a 3-vector. -/
noncomputable def norm3 (a : Vec3) : ℝ := Real.sqrt (dot3 a a)

/-- `np.cross` of 3-vectors. -/
noncomputable def cross3 (a b : Vec3) : Vec3 :=
  ![a 1 * b 2 - a 2 * b 1, a 2 * b 0 - a 0 * b 2, a 0 * b 1 - a 1 * b 0]

/-- `Beam3D.length()`: Euclidean distance between the node coordinates. -/
noncomputable def beamLength (c1 c2 : Vec3) : ℝ := norm3 (vsub3 c2 c1)

/-- Normalized beam axis `x_local = diff / L`. -/
noncomputable def dcm_x (c1 c2 : Vec3) : Vec3 :=
  sdiv3 (vsub3 c2 c1) (norm3 (vsub3 c2 c1))

/-- Tolerance of `np.allclose(x_local[:2], 0)` against a zero target
(default `atol = 1e-8`; the `rtol` term vanishes on a zero target). -/
noncomputable def allcloseAtol : ℝ := 1 / 10 ^ 8

/-- Degeneracy threshold `1e-6` for the provisional local y axis. -/
noncomputable def yDegenTol : ℝ := 1 / 10 ^ 6

/-- Reference vector choice: global X when the axis is (near-)vertical
(`np.allclose(x_local[:2], 0)`), otherwise global Z. -/
noncomputable def dcm_temp (c1 c2 : Vec3) : Vec3 :=
  if |dcm_x c1 c2 0| ≤ allcloseAtol ∧ |dcm_x c1 c2 1| ≤ allcloseAtol then
    ![1, 0, 0]
  else
    ![0, 0, 1]

/-- Provisional local y axis `np.cross(temp_vec, x_local)`. -/
noncomputable def dcm_y0 (c1 c2 : Vec3) : Vec3 :=
  cross3 (dcm_temp c1 c2) (dcm_x c1 c2)

/-- Fallback: when the provisional y axis is shorter than `1e-6`, use
`np.cross([0,1,0], x_local)` instead. -/
noncomputable def dcm_y1 (c1 c2 : Vec3) : Vec3 :=
  if norm3 (dcm_y0 c1 c2) < yDegenTol then cross3 ![0, 1, 0] (dcm_x c1 c2)
  else dcm_y0 c1 c2

/-- Normalized local y axis. -/
noncomputable def dcm_y (c1 c2 : Vec3) : Vec3 :=
  sdiv3 (dcm_y1 c1 c2) (norm3 (dcm_y1 c1 c2))

/-- Local z axis `np.cross(x_local, y_local)`. -/
noncomputable def dcm_z (c1 c2 : Vec3) : Vec3 :=
  cross3 (dcm_x c1 c2) (dcm_y c1 c2)

/-- Embedding of `Beam3D.direction_cosine_matrix`: the rotation matrix whose
columns are the local x, y, z axes (`np.column_stack`). -/
noncomputable def direction_cosine_matrix (c1 c2 : Vec3) :
    Matrix (Fin 3) (Fin 3) ℝ :=
  Matrix.of fun i j => ![dcm_x c1 c2, dcm_y c1 c2, dcm_z c1 c2] j i

/-- Index identification `(Fin 3 + Fin 3) + Fin 1 = Fin 7` used to express
the slice assignments `T[0:3,0:3] = R.T` and `T[3:6,3:6] = R.T` into
`np.eye(7)` as a block matrix. -/
def eq7 : (Fin 3 ⊕ Fin 3) ⊕ Fin 1 ≃ Fin 7 :=
  (Equiv.sumCongr finSumFinEquiv (Equiv.refl (Fin 1))).trans finSumFinEquiv

/-- Index identification `Fin 7 + Fin 7 = Fin 14` used to express
`scipy.linalg.block_diag(T_node, T_node)`. -/
def eq14 : Fin 7 ⊕ Fin 7 ≃ Fin 14 := finSumFinEquiv

/-- Per-node 7x7 transformation block: `np.eye(7)` with `R.T` written into
the translation slice `[0:3,0:3]` and the rotation slice `[3:6,3:6]`;
the warping entry `[6,6]` stays 1. -/
noncomputable def T_node (R : Matrix (Fin 3) (Fin 3) ℝ) :
    Matrix (Fin 7) (Fin 7) ℝ :=
  Matrix.reindex eq7 eq7
    (Matrix.fromBlocks (Matrix.fromBlocks R.transpose 0 0 R.transpose) 0 0
      (1 : Matrix (Fin 1) (Fin 1) ℝ))

/-- Embedding of `Beam3D.transformation_matrix`:
`block_diag(T_node, T_node)`. -/
noncomputable def transformation_matrix (c1 c2 : Vec3) :
    Matrix (Fin 14) (Fin 14) ℝ :=
  Matrix.reindex eq14 eq14
    (Matrix.fromBlocks (T_node (direction_cosine_matrix c1 c2)) 0 0
      (T_node (direction_cosine_matrix c1 c2)))

/-! ## Beam element construction and matrix requests (C9 support)

`Beam3D.__init__` stores its arguments and performs no validation, so it
cannot raise.  A matrix request on a zero-length element performs numpy
float divisions by zero, which emit a runtime warning and produce non-finite
values but do not raise either; the `Except`-valued embeddings below
therefore have no error case, and the entry values at zero length are junk
(total real division) in both semantics. -/

/-- Stored fields of a `Beam3D` object: the two node coordinate triples and
the material/section constants consumed by its matrix methods. -/
structure Beam3DData where
  node1 : Vec3
  node2 : Vec3
  E : ℝ
  G : ℝ
  A : ℝ
  Iy : ℝ
  Iz : ℝ
  J : ℝ
  Cw : ℝ

/-- Embedding of the `Beam3D(...)` constructor call: stores the arguments;
there is no length or degeneracy check, so construction always succeeds. -/
def Beam3D.init (c1 c2 : Vec3) (E G A Iy Iz J Cw : ℝ) :
    Except String Beam3DData :=
  .ok ⟨c1, c2, E, G, A, Iy, Iz, J, Cw⟩

/-- Embedding of a `local_stiffness_matrix()` method call on a stored beam:
numpy division never raises, so the call always returns a matrix. -/
noncomputable def Beam3D.localStiffnessCall (b : Beam3DData) :
    Except String (Matrix (Fin 14) (Fin 14) ℝ) :=
  .ok (local_stiffness_matrix b.E b.G b.A b.Iy b.Iz b.J b.Cw
    (beamLength b.node1 b.node2))

/-! ## Static solver (src/balk/solver.py, StaticSolver.solve)

`solve` reads four things off the model: the assembled stiffness `K`, the
load vector `F`, the constrained-DOF set, and `total_dofs` (always
`7 * node_count`, see `totalDofs`).  The embedding takes those as inputs and
performs the partition / solve / scatter steps of the source. -/

/-- `np.setdiff1d(np.arange(total_dofs), constrained_dofs)`: the free DOFs
are the complement of the constrained set. -/
def freeDofs (t : ℕ) (constrained : Finset (Fin t)) : Finset (Fin t) :=
  constrainedᶜ

/-- The partitioned sub-matrix `K_ff = K[np.ix_(free_dofs, free_dofs)]`. -/
def Kffm (t : ℕ) (K : Matrix (Fin t) (Fin t) ℝ) (constrained : Finset (Fin t)) :
    Matrix ↥(freeDofs t constrained) ↥(freeDofs t constrained) ℝ :=
  K.submatrix (fun i => i.val) (fun i => i.val)

/-- The partitioned load sub-vector `F_f = F[free_dofs]`. -/
def Ffv (t : ℕ) (F : Fin t → ℝ) (constrained : Finset (Fin t)) :
    ↥(freeDofs t constrained) → ℝ :=
  fun i => F i.val

/-- Embedding of `StaticSolver.solve`: if no DOF is free, return the all-zero
vector; otherwise solve `K_ff u_f = F_f` (`np.linalg.solve`, modelled as
multiplication by the matrix inverse, exact for an invertible `K_ff`) and
scatter `u_f` into a zero-initialised full vector at the free indices. -/
noncomputable def staticSolve (t : ℕ) (K : Matrix (Fin t) (Fin t) ℝ)
    (F : Fin t → ℝ) (constrained : Finset (Fin t)) : Fin t → ℝ :=
  if (freeDofs t constrained).card = 0 then fun _ => 0
  else fun i =>
    if h : i ∈ freeDofs t constrained then
      Matrix.mulVec (Kffm t K constrained)⁻¹ (Ffv t F constrained) ⟨i, h⟩
    else 0

/-- Loop of `Model.get_load_vector`: starting from `np.zeros(total_dofs)`,
each recorded `(node_id, 7-vector)` load is added at the node's global DOF
indices (`F[dofs] += load`).  `dofmap` gives each node's `dof_indices`. -/
noncomputable def scatterLoads (t : ℕ) (dofmap : ℤ → List ℕ) :
    List (ℤ × (Fin 7 → ℝ)) → Fin t → ℝ
  | [] => fun _ => 0
  | (nid, load) :: rest => fun i =>
      scatterLoads t dofmap rest i +
        ∑ k : Fin 7, if (dofmap nid).get? k.val = some i.val then load k else 0

/-! ## Buckling solver post-processing (src/balk/solver.py, BucklingSolver.solve)

After assembling and partitioning, `BucklingSolver.solve` calls
`scipy.linalg.eig(K_ff, -Kg_ff)`.  The shallow embedding treats that call as
an oracle: the post-processing is defined over an arbitrary list of
eigenvalue/eigenvector pairs standing for the generalized eigenpairs of the
pencil `(K_ff, -Kg_ff)` as returned by `eig`.  An eigenvalue carries its
real part, its imaginary part and its finiteness flag (an infinite value,
produced by `eig` for a singular pencil, is excluded by `np.isfinite`). -/

/-- A complex eigenvalue as returned by `scipy.linalg.eig`, with
`np.isfinite` information. -/
structure EigenC where
  re : ℚ
  im : ℚ
  finite : Bool
deriving DecidableEq, Repr

/-- The filter of `BucklingSolver.solve`:
`np.isreal(v) and np.real(v) > 1e-6 and np.isfinite(v)`. -/
def isValidEig (v : EigenC) : Bool :=
  (v.im == 0) && (decide ((1 : ℚ) / 1000000 < v.re)) && v.finite

/-- Comparison by real part used for `np.argsort(valid_vals)`. -/
def eigLe {V : Type} (a b : EigenC × V) : Prop := a.1.re ≤ b.1.re

instance {V : Type} : DecidableRel (@eigLe V) :=
  fun a b => inferInstanceAs (Decidable (a.1.re ≤ b.1.re))

instance {V : Type} : IsTotal (EigenC × V) eigLe :=
  ⟨fun a b => le_total a.1.re b.1.re⟩

instance {V : Type} : IsTrans (EigenC × V) eigLe :=
  ⟨fun _ _ _ hab hbc => le_trans hab hbc⟩

/-- Embedding of the filtering / sorting / truncation tail of
`BucklingSolver.solve`, parameterised by the free-DOF partition and the
`eig` oracle output: keep the eigenpairs passing `isValidEig`; if none
survive return empty results together with the free-DOF set; otherwise sort
the surviving pairs ascending by (real) eigenvalue — `np.argsort` applies
one permutation to values and vectors alike, so pairing is preserved — and
return the first `num_modes` eigenvalues and eigenvectors plus the free-DOF
set. -/
def bucklingPost {V : Type} (t : ℕ) (constrained : Finset (Fin t))
    (eigPairs : List (EigenC × V)) (num_modes : ℕ) :
    List ℚ × List V × Finset (Fin t) :=
  let valid := eigPairs.filter (fun p => isValidEig p.1)
  if valid.isEmpty then ([], [], freeDofs t constrained)
  else
    (((valid.insertionSort eigLe).take num_modes).map (fun p => p.1.re),
     ((valid.insertionSort eigLe).take num_modes).map (fun p => p.2),
     freeDofs t constrained)

/-! ## Helper lemmas -/

/-- Success of a bound `Except` computation, by cases on the first stage. -/
theorem isOkE_bind {α β : Type} (e : Except String α) (f : α → Except String β) :
    isOkE (e >>= f) = match e with
      | .ok a => isOkE (f a)
      | .error _ => false := by
  cases e <;> rfl

/-! ## C8: Material construction -/

/-- C8 (amended): with both `G` and `nu` supplied both are stored as given;
with exactly one supplied the other is derived by the stated formula
provided the derivation's denominator is nonzero (`G ≠ 0`, resp.
`nu ≠ -1`); construction fails exactly when neither is supplied, or only
`G = 0` is supplied, or only `nu = -1` is supplied (the derivation then
divides by zero). -/
theorem material_init_characterization (E rho : ℚ) (Gopt nuopt : Option ℚ) :
    (∀ G nu, Gopt = some G → nuopt = some nu →
        Material.init E Gopt nuopt rho = .ok ⟨E, G, nu, rho⟩)
  ∧ (∀ G, Gopt = some G → nuopt = none → G ≠ 0 →
        Material.init E Gopt nuopt rho = .ok ⟨E, G, E / (2 * G) - 1, rho⟩)
  ∧ (∀ nu, Gopt = none → nuopt = some nu → nu ≠ -1 →
        Material.init E Gopt nuopt rho = .ok ⟨E, E / (2 * (1 + nu)), nu, rho⟩)
  ∧ (isOkE (Material.init E Gopt nuopt rho) = false ↔
        (Gopt = none ∧ nuopt = none) ∨ (Gopt = some 0 ∧ nuopt = none) ∨
          (Gopt = none ∧ nuopt = some (-1))) := by
  refine ⟨?_, ?_, ?_, ?_⟩
  · rintro G nu rfl rfl
    rfl
  · rintro G rfl rfl hG
    have h2 : (2 : ℚ) * G ≠ 0 := mul_ne_zero two_ne_zero hG
    simp [Material.init, pydiv, h2, Bind.bind, Except.bind]
  · rintro nu rfl rfl hnu
    have h1 : (1 : ℚ) + nu ≠ 0 := by
      intro hc
      exact hnu (by linarith)
    have h2 : (2 : ℚ) * (1 + nu) ≠ 0 := mul_ne_zero two_ne_zero h1
    simp [Material.init, pydiv, h2, Bind.bind, Except.bind]
  · rcases Gopt with _ | G <;> rcases nuopt with _ | nu
    · simp [Material.init, isOkE]
    · by_cases hnu : nu = -1
      · subst hnu
        simp [Material.init, pydiv, isOkE, Bind.bind, Except.bind, show (2 : ℚ) * (1 + -1) = 0 by ring]
      · have h1 : (1 : ℚ) + nu ≠ 0 := by
          intro hc
          exact hnu (by linarith)
        have h2 : (2 : ℚ) * (1 + nu) ≠ 0 := mul_ne_zero two_ne_zero h1
        simp [Material.init, pydiv, isOkE, Bind.bind, Except.bind, h2, hnu]
    · by_cases hG : G = 0
      · subst hG
        simp [Material.init, pydiv, isOkE, Bind.bind, Except.bind, show (2 : ℚ) * 0 = 0 by ring]
      · have h2 : (2 : ℚ) * G ≠ 0 := mul_ne_zero two_ne_zero hG
        simp [Material.init, pydiv, isOkE, Bind.bind, Except.bind, h2, hG]
    · simp [Material.init, isOkE]

/-- C8 counterexample: supplying `E` together with `G = 0` (and no `nu`)
raises `ZeroDivisionError`, so construction can fail even though one of
`G`, `nu` is supplied, and the missing constant is not derived. -/
theorem material_init_zero_G_raises :
    Material.init 1 (some 0) none 0 = .error "ZeroDivisionError" := by
  simp [Material.init, pydiv, Bind.bind, Except.bind]

/-- Witness for `material_init_characterization` at `E = 6`, `G = 2`. -/
theorem material_init_characterization_witness :
    (2 : ℚ) ≠ 0 ∧
      Material.init 6 (some 2) none 0 = .ok ⟨6, 2, 6 / (2 * 2) - 1, 0⟩ :=
  ⟨by norm_num,
   (material_init_characterization 6 0 (some 2) none).2.1 2 rfl rfl (by norm_num)⟩

/-! ## C4: DOF map generation -/

/-- `assignDofs` keeps the list length. -/
theorem assignDofs_length (l : List ℤ) (c : ℕ) :
    (assignDofs l c).length = l.length := by
  induction l generalizing c with
  | nil => rfl
  | cons hd tl ih => simp [assignDofs, ih]

/-- The `_generate_dof_map` loop ends with `current_dof` advanced by 7 per
node. -/
theorem finalDofCount_eq (l : List ℤ) (c : ℕ) :
    finalDofCount l c = c + 7 * l.length := by
  induction l generalizing c with
  | nil => simp [finalDofCount]
  | cons hd tl ih =>
      simp [finalDofCount, ih]
      omega

/-- Looking up the id at position `k` of a duplicate-free id list in the
`assignDofs` association list yields the `k`-th 7-wide index block. -/
theorem assignDofs_lookup : (l : List ℤ) → l.Nodup → (c k : ℕ) → (nid : ℤ) →
    l.get? k = some nid →
    (assignDofs l c).lookup nid = some (List.range' (c + 7 * k) 7)
  | [], _, c, k, nid, hget => by simp at hget
  | hd :: tl, hl, c, 0, nid, hget => by
      simp at hget
      subst hget
      simp [assignDofs, List.lookup]
  | hd :: tl, hl, c, k + 1, nid, hget => by
      simp at hget
      have hmem : nid ∈ tl := List.getElem?_mem hget
      have hne : nid ≠ hd := by
        intro hc
        subst hc
        exact (List.nodup_cons.mp hl).1 hmem
      have hbeq : (nid == hd) = false := beq_eq_false_iff_ne.mpr hne
      have hrec := assignDofs_lookup tl (List.nodup_cons.mp hl).2 (c + 7) k nid
        (by simpa using hget)
      have harith : c + 7 + 7 * k = c + 7 * (k + 1) := by omega
      rw [harith] at hrec
      simp [assignDofs, List.lookup, hbeq, hrec]

/-- Looking up any present id in the `assignDofs` association list yields a
7-wide index block. -/
theorem assignDofs_lookup_mem : (l : List ℤ) → (c : ℕ) → (nid : ℤ) → nid ∈ l →
    ∃ c2, (assignDofs l c).lookup nid = some (List.range' c2 7)
  | [], c, nid, hm => by simp at hm
  | hd :: tl, c, nid, hm => by
      by_cases hne : nid = hd
      · subst hne
        exact ⟨c, by simp [assignDofs, List.lookup]⟩
      · have hmem : nid ∈ tl := by
          rcases List.mem_cons.mp hm with h | h
          · exact absurd h hne
          · exact h
        obtain ⟨c2, hc2⟩ := assignDofs_lookup_mem tl (c + 7) nid hmem
        have hbeq : (nid == hd) = false := beq_eq_false_iff_ne.mpr hne
        exact ⟨c2, by simp [assignDofs, List.lookup, hbeq, hc2]⟩

/-- After DOF-map generation every present node id holds exactly 7 DOF
indices. -/
theorem dofIndicesOf_length (ids : List ℤ) (nid : ℤ) (hm : nid ∈ ids) :
    (dofIndicesOf ids nid).length = 7 := by
  have hm2 : nid ∈ sortedNodeIds ids :=
    (List.perm_insertionSort (· ≤ ·) ids).mem_iff.mpr hm
  obtain ⟨c2, hc2⟩ := assignDofs_lookup_mem (sortedNodeIds ids) 0 nid hm2
  simp [dofIndicesOf, generateDofMap, hc2]

/-- C4: for a model with duplicate-free node ids, the node appearing at
position `k` of the ascending id order receives exactly the contiguous
global DOF indices `7k` through `7k+6`; the total DOF count is `7` times
the node count; and the generated map depends only on the multiset of node
ids, not on their insertion order. -/
theorem generate_dof_map_spec (ids : List ℤ) (h : ids.Nodup) :
    (∀ k nid, (sortedNodeIds ids).get? k = some nid →
        (generateDofMap ids).lookup nid = some (List.range' (7 * k) 7))
  ∧ totalDofs ids = 7 * ids.length
  ∧ (∀ ids2, ids.Perm ids2 → generateDofMap ids = generateDofMap ids2) := by
  refine ⟨?_, ?_, ?_⟩
  · intro k nid hget
    have hnodup : (sortedNodeIds ids).Nodup :=
      (List.perm_insertionSort (· ≤ ·) ids).nodup_iff.mpr h
    have := assignDofs_lookup (sortedNodeIds ids) hnodup 0 k nid hget
    simpa [generateDofMap] using this
  · have hlen : (sortedNodeIds ids).length = ids.length :=
      (List.perm_insertionSort (· ≤ ·) ids).length_eq
    simp [totalDofs, finalDofCount_eq, hlen]
  · intro ids2 hperm
    have hsorted : sortedNodeIds ids = sortedNodeIds ids2 :=
      List.eq_of_perm_of_sorted
        (((List.perm_insertionSort (· ≤ ·) ids).trans hperm).trans
          (List.perm_insertionSort (· ≤ ·) ids2).symm)
        (List.sorted_insertionSort (· ≤ ·) ids)
        (List.sorted_insertionSort (· ≤ ·) ids2)
    simp [generateDofMap, hsorted]

/-- Witness for `generate_dof_map_spec` on the id list `[3, 1, 2]`. -/
theorem generate_dof_map_spec_witness :
    ([3, 1, 2] : List ℤ).Nodup ∧ totalDofs [3, 1, 2] = 7 * 3 :=
  ⟨by decide, (generate_dof_map_spec [3, 1, 2] (by decide)).2.1⟩

/-! ## C10: constraint DOF indices -/

/-- A `mapM` over `Except` succeeds exactly when every element does. -/
theorem mapM_ok_iff {α β : Type} (f : α → Except String β) (l : List α) :
    isOkE (l.mapM f) = true ↔ ∀ x ∈ l, isOkE (f x) = true := by
  induction l with
  | nil =>
      constructor
      · intro _ x hx
        simp at hx
      · intro _
        rfl
  | cons hd tl ih =>
      rw [List.mapM_cons]
      constructor
      · intro h x hx
        cases hfa : f hd with
        | error e =>
            rw [hfa] at h
            simp [isOkE, Bind.bind, Except.bind] at h
        | ok a =>
            cases hmt : tl.mapM f with
            | error e =>
                rw [hfa, hmt] at h
                simp [isOkE, Bind.bind, Except.bind] at h
            | ok bs =>
                rcases List.mem_cons.mp hx with rfl | hx2
                · simp [hfa, isOkE]
                · exact (ih.mp (by rw [hmt]; rfl)) x hx2
      · intro h
        have h1 : isOkE (f hd) = true := h hd (List.mem_cons_self hd tl)
        have h2 : isOkE (tl.mapM f) = true :=
          ih.mpr (fun x hx => h x (List.mem_cons_of_mem hd hx))
        cases hfa : f hd with
        | error e =>
            rw [hfa] at h1
            simp [isOkE] at h1
        | ok a =>
            cases hmt : tl.mapM f with
            | error e =>
                rw [hmt] at h2
                simp [isOkE] at h2
            | ok bs =>
                simp only [Bind.bind, Except.bind, hfa, hmt]
                rfl

/-- `get_constrained_dofs` succeeds exactly when every recorded index is in
range. -/
theorem get_constrained_dofs_isOk (m : ModelB) :
    isOkE (get_constrained_dofs m) =
      isOkE (m.constraints.mapM
        (fun p => pyListGet (dofIndicesOf m.nodes p.1) p.2)) := by
  unfold get_constrained_dofs
  cases h : m.constraints.mapM
      (fun p => pyListGet (dofIndicesOf m.nodes p.1) p.2) with
  | ok raw => simp [h, Bind.bind, Except.bind, isOkE]
  | error e => simp [h, Bind.bind, Except.bind, isOkE]

/-- Python indexing on a 7-entry list fails exactly outside `[-7, 7)`. -/
theorem pyListGet_out_of_range (l : List ℕ) (d : ℤ) (hlen : l.length = 7)
    (hd : 7 ≤ d ∨ d < -7) : pyListGet l d = .error "IndexError" := by
  unfold pyListGet
  rw [if_neg]
  intro hc
  rcases hc with ⟨h0, h1⟩
  rcases hd with h | h <;> split_ifs at h0 h1 <;> omega

/-- Python indexing on a 7-entry list with a negative in-range index equals
indexing at the offset `d + 7`. -/
theorem pyListGet_neg_shift (l : List ℕ) (d : ℤ) (hlen : l.length = 7)
    (h1 : -7 ≤ d) (h2 : d < 0) :
    pyListGet l d = pyListGet l (d + 7) := by
  have e1 : (if d < 0 then d + (l.length : ℤ) else d) = d + 7 := by
    rw [if_pos h2, hlen]
    omega
  have e2 : (if d + 7 < 0 then d + 7 + (l.length : ℤ) else d + 7) = d + 7 := by
    rw [if_neg (by omega)]
  unfold pyListGet
  simp only [e1, e2]

/-- Python indexing on a 7-entry list succeeds on `[-7, 7)`. -/
theorem pyListGet_in_range (l : List ℕ) (d : ℤ) (hlen : l.length = 7)
    (h1 : -7 ≤ d) (h2 : d < 7) : isOkE (pyListGet l d) = true := by
  unfold pyListGet
  rw [if_pos]
  · rfl
  · constructor <;> split_ifs <;> omega

/-- C10 (amended): `add_constraint` checks only that the node exists and
records any integer `dof_index` unvalidated; a recorded index with
`d ≥ 7` or `d < -7` makes `get_constrained_dofs` raise `IndexError` later;
a recorded index in `[-7, -1]` is silently interpreted as the DOF `d + 7`
counted from the end of the node's 7-entry block; and when every recorded
index lies in `[-7, 7)` (with known nodes) `get_constrained_dofs`
succeeds. -/
theorem add_constraint_unchecked :
    (∀ (m : ModelB) (nid d : ℤ), nid ∈ m.nodes →
        ∃ m2, add_constraint m nid d = .ok m2 ∧ (nid, d) ∈ m2.constraints)
  ∧ (∀ (m : ModelB) (nid d : ℤ), (nid, d) ∈ m.constraints → nid ∈ m.nodes →
        (7 ≤ d ∨ d < -7) → isOkE (get_constrained_dofs m) = false)
  ∧ (∀ (m : ModelB) (nid d : ℤ), nid ∈ m.nodes → -7 ≤ d → d < 0 →
        pyListGet (dofIndicesOf m.nodes nid) d =
          pyListGet (dofIndicesOf m.nodes nid) (d + 7))
  ∧ (∀ m : ModelB,
        (∀ p ∈ m.constraints, p.1 ∈ m.nodes ∧ -7 ≤ p.2 ∧ p.2 < 7) →
        isOkE (get_constrained_dofs m) = true) := by
  refine ⟨?_, ?_, ?_, ?_⟩
  · intro m nid d hmem
    unfold add_constraint
    rw [if_pos hmem]
    by_cases hc : (nid, d) ∈ m.constraints
    · exact ⟨_, rfl, by simp [hc]⟩
    · refine ⟨_, rfl, ?_⟩
      rw [if_neg hc]
      simp
  · intro m nid d hcmem hnmem hbad
    rw [get_constrained_dofs_isOk]
    have hlen : (dofIndicesOf m.nodes nid).length = 7 :=
      dofIndicesOf_length m.nodes nid hnmem
    have hfail : pyListGet (dofIndicesOf m.nodes nid) d = .error "IndexError" :=
      pyListGet_out_of_range _ d hlen hbad
    cases hres : isOkE (m.constraints.mapM
        (fun p => pyListGet (dofIndicesOf m.nodes p.1) p.2)) with
    | false => rfl
    | true =>
        have := (mapM_ok_iff _ m.constraints).mp hres (nid, d) hcmem
        rw [hfail] at this
        simp [isOkE] at this
  · intro m nid d hnmem h1 h2
    exact pyListGet_neg_shift _ d (dofIndicesOf_length m.nodes nid hnmem) h1 h2
  · intro m hall
    rw [get_constrained_dofs_isOk]
    refine (mapM_ok_iff _ m.constraints).mpr ?_
    intro p hp
    obtain ⟨hn, hlo, hhi⟩ := hall p hp
    exact pyListGet_in_range _ p.2 (dofIndicesOf_length m.nodes p.1 hn) hlo hhi

/-- C10 counterexample: recording `dof_index = -8` on an existing node
succeeds, but `get_constrained_dofs` then raises `IndexError`, so a
negative `dof_index` is not always silently accepted. -/
theorem add_constraint_neg8_fails :
    add_constraint ⟨[1], []⟩ 1 (-8) = .ok ⟨[1], [(1, -8)]⟩ ∧
      isOkE (get_constrained_dofs ⟨[1], [(1, -8)]⟩) = false := by
  constructor
  · rfl
  · rfl

/-- Witness for `add_constraint_unchecked` on a one-node model. -/
theorem add_constraint_unchecked_witness :
    ((1 : ℤ) ∈ ([1] : List ℤ)) ∧
      ∃ m2, add_constraint ⟨[1], []⟩ 1 9 = .ok m2 ∧
        ((1 : ℤ), (9 : ℤ)) ∈ m2.constraints :=
  ⟨by decide, add_constraint_unchecked.1 ⟨[1], []⟩ 1 9 (by decide)⟩

/-! ## C3: symmetry of the local stiffness matrix -/

/-- Scatter-adding a symmetric block into a symmetric matrix preserves
symmetry. -/
theorem scatterAdd_symm {F : Type} [Field F] {m k : ℕ}
    (K : Matrix (Fin m) (Fin m) F) (idx : Fin k → Fin m)
    (B : Matrix (Fin k) (Fin k) F)
    (hK : ∀ i j, K i j = K j i) (hB : ∀ p q, B p q = B q p) :
    ∀ i j, scatterAdd K idx B i j = scatterAdd K idx B j i := by
  intro i j
  simp only [scatterAdd, Matrix.of_apply]
  rw [hK i j]
  congr 1
  rw [Finset.sum_comm]
  refine Finset.sum_congr rfl fun p _ => Finset.sum_congr rfl fun q _ => ?_
  rw [hB q p]
  exact if_congr and_comm rfl rfl

/-- The axial block is symmetric. -/
theorem k_axial_symm {F : Type} [Field F] (E A L : F) :
    ∀ p q, k_axial E A L p q = k_axial E A L q p := by
  intro p q
  fin_cases p <;> fin_cases q <;>
    simp [k_axial, Matrix.smul_apply, Matrix.cons_val_zero, Matrix.cons_val_one,
      Matrix.head_cons]

/-- The warping bending block is symmetric. -/
theorem k_w_bending_symm {F : Type} [Field F] (E Cw L : F) :
    ∀ p q, k_w_bending E Cw L p q = k_w_bending E Cw L q p := by
  intro p q
  fin_cases p <;> fin_cases q <;>
    simp [k_w_bending, Matrix.smul_apply, Matrix.cons_val_zero,
      Matrix.cons_val_one, Matrix.head_cons]

/-- The St. Venant torsion block is symmetric. -/
theorem k_w_sv_symm {F : Type} [Field F] (G J L : F) :
    ∀ p q, k_w_sv G J L p q = k_w_sv G J L q p := by
  intro p q
  fin_cases p <;> fin_cases q <;>
    simp [k_w_sv, Matrix.smul_apply, Matrix.cons_val_zero,
      Matrix.cons_val_one, Matrix.head_cons]

/-- The z-bending block is symmetric. -/
theorem k_bending_z_symm {F : Type} [Field F] (E Iz L : F) :
    ∀ p q, k_bending_z E Iz L p q = k_bending_z E Iz L q p := by
  intro p q
  fin_cases p <;> fin_cases q <;>
    simp [k_bending_z, Matrix.smul_apply, Matrix.cons_val_zero,
      Matrix.cons_val_one, Matrix.head_cons]

/-- The y-bending block is symmetric. -/
theorem k_bending_y_symm {F : Type} [Field F] (E Iy L : F) :
    ∀ p q, k_bending_y E Iy L p q = k_bending_y E Iy L q p := by
  intro p q
  fin_cases p <;> fin_cases q <;>
    simp [k_bending_y, Matrix.smul_apply, Matrix.cons_val_zero,
      Matrix.cons_val_one, Matrix.head_cons]

/-- C3: for every beam element with positive length, the 14x14 local
stiffness matrix is symmetric: `K[i][j] = K[j][i]` for all index pairs. -/
theorem local_stiffness_symmetric (E G A Iy Iz J Cw L : ℚ) (hL : 0 < L) :
    ∀ i j, local_stiffness_matrix E G A Iy Iz J Cw L i j =
      local_stiffness_matrix E G A Iy Iz J Cw L j i := by
  unfold local_stiffness_matrix
  refine scatterAdd_symm _ _ _ ?_ (k_bending_y_symm E Iy L)
  refine scatterAdd_symm _ _ _ ?_ (k_bending_z_symm E Iz L)
  refine scatterAdd_symm _ _ _ ?_ ?_
  · refine scatterAdd_symm _ _ _ (fun i j => rfl) (k_axial_symm E A L)
  · intro p q
    simp only [Matrix.add_apply]
    rw [k_w_bending_symm E Cw L p q, k_w_sv_symm G J L p q]

/-- Witness for `local_stiffness_symmetric` at unit parameters. -/
theorem local_stiffness_symmetric_witness :
    (0 : ℚ) < 1 ∧
      ∀ i j, local_stiffness_matrix (1 : ℚ) 1 1 1 1 1 1 1 i j =
        local_stiffness_matrix (1 : ℚ) 1 1 1 1 1 1 1 j i :=
  ⟨by norm_num, local_stiffness_symmetric 1 1 1 1 1 1 1 1 (by norm_num)⟩

/-! ## C2 and C7: static solver -/

/-- C2: for any model data with `total_dofs = 7 * node_count` whose free-DOF
stiffness sub-matrix is invertible, the solved displacement vector vanishes
at every constrained DOF and restricts on the free DOFs to the solution of
`K_ff u_f = F_f`; and when every DOF is constrained the result is the
all-zero vector. -/
theorem static_solve_correct (nn : ℕ) (K : Matrix (Fin (7 * nn)) (Fin (7 * nn)) ℝ)
    (F : Fin (7 * nn) → ℝ) (constrained : Finset (Fin (7 * nn)))
    (hdet : IsUnit (Kffm (7 * nn) K constrained).det) :
    (∀ i ∈ constrained, staticSolve (7 * nn) K F constrained i = 0)
  ∧ Matrix.mulVec (Kffm (7 * nn) K constrained)
      (fun j => staticSolve (7 * nn) K F constrained j.val) =
      Ffv (7 * nn) F constrained
  ∧ (constrained = Finset.univ →
      staticSolve (7 * nn) K F constrained = fun _ => 0) := by
  by_cases hcard : (freeDofs (7 * nn) constrained).card = 0
  · have hsolve : staticSolve (7 * nn) K F constrained = fun _ => 0 := by
      unfold staticSolve
      rw [if_pos hcard]
    refine ⟨?_, ?_, ?_⟩
    · intro i _
      rw [hsolve]
    · have hfree : freeDofs (7 * nn) constrained = ∅ :=
        Finset.card_eq_zero.mp hcard
      funext j
      exfalso
      have hj : j.val ∈ (∅ : Finset (Fin (7 * nn))) := by
        rw [← hfree]
        exact j.2
      exact absurd hj (Finset.not_mem_empty _)
    · intro _
      exact hsolve
  · have hsolve : staticSolve (7 * nn) K F constrained = fun i =>
        if h : i ∈ freeDofs (7 * nn) constrained then
          Matrix.mulVec (Kffm (7 * nn) K constrained)⁻¹
            (Ffv (7 * nn) F constrained) ⟨i, h⟩
        else 0 := by
      unfold staticSolve
      rw [if_neg hcard]
    refine ⟨?_, ?_, ?_⟩
    · intro i hi
      have hni : i ∉ freeDofs (7 * nn) constrained := by
        simp [freeDofs, hi]
      simp only [hsolve]
      rw [dif_neg hni]
    · have hres : (fun j : ↥(freeDofs (7 * nn) constrained) =>
          staticSolve (7 * nn) K F constrained j.val) =
          Matrix.mulVec (Kffm (7 * nn) K constrained)⁻¹
            (Ffv (7 * nn) F constrained) := by
        funext j
        simp only [hsolve]
        rw [dif_pos j.2]
      rw [hres, Matrix.mulVec_mulVec, Matrix.mul_nonsing_inv _ hdet,
        Matrix.one_mulVec]
    · intro huniv
      have : (freeDofs (7 * nn) constrained).card = 0 := by
        rw [freeDofs, huniv, Finset.compl_univ, Finset.card_empty]
      exact absurd this hcard

/-- Witness for `static_solve_correct` on a one-node identity system. -/
theorem static_solve_correct_witness :
    IsUnit (Kffm (7 * 1) (1 : Matrix (Fin (7 * 1)) (Fin (7 * 1)) ℝ) ∅).det ∧
      ∀ i ∈ (∅ : Finset (Fin (7 * 1))),
        staticSolve (7 * 1) 1 (fun _ => 0) ∅ i = 0 := by
  have hsub : Kffm (7 * 1) (1 : Matrix (Fin (7 * 1)) (Fin (7 * 1)) ℝ) ∅ = 1 := by
    unfold Kffm
    ext i j
    simp [Matrix.submatrix_apply, Matrix.one_apply, Subtype.ext_iff]
  have hdet :
      IsUnit (Kffm (7 * 1) (1 : Matrix (Fin (7 * 1)) (Fin (7 * 1)) ℝ) ∅).det := by
    rw [hsub]
    simp
  exact ⟨hdet, (static_solve_correct 1 1 (fun _ => 0) ∅ hdet).1⟩

/-- C7: with no recorded loads the assembled load vector is identically zero
and the static solve returns the all-zero displacement vector (for any
constraint set; the invertibility hypothesis mirrors the claim). -/
theorem static_solve_zero_loads (t : ℕ) (K : Matrix (Fin t) (Fin t) ℝ)
    (constrained : Finset (Fin t)) (dofmap : ℤ → List ℕ)
    (hdet : IsUnit (Kffm t K constrained).det) :
    staticSolve t K (scatterLoads t dofmap []) constrained = fun _ => 0 := by
  unfold staticSolve
  split_ifs with hcard
  · rfl
  · funext i
    by_cases h : i ∈ freeDofs t constrained
    · rw [dif_pos h]
      rw [show Ffv t (scatterLoads t dofmap []) constrained = 0 from rfl,
        Matrix.mulVec_zero]
      rfl
    · rw [dif_neg h]

/-- Witness for `static_solve_zero_loads` on a one-node identity system. -/
theorem static_solve_zero_loads_witness :
    IsUnit (Kffm 7 (1 : Matrix (Fin 7) (Fin 7) ℝ) ∅).det ∧
      staticSolve 7 1 (scatterLoads 7 (fun _ => []) []) ∅ = fun _ => 0 := by
  have hsub : Kffm 7 (1 : Matrix (Fin 7) (Fin 7) ℝ) ∅ = 1 := by
    unfold Kffm
    ext i j
    simp [Matrix.submatrix_apply, Matrix.one_apply, Subtype.ext_iff]
  have hdet : IsUnit (Kffm 7 (1 : Matrix (Fin 7) (Fin 7) ℝ) ∅).det := by
    rw [hsub]
    simp
  exact ⟨hdet, static_solve_zero_loads 7 1 ∅ (fun _ => []) hdet⟩

/-! ## C1: buckling eigenvalue post-processing -/

/-- Branch-free description of `bucklingPost`: the empty-filter branch
coincides with taking from an empty sort. -/
theorem bucklingPost_eq {V : Type} (t : ℕ) (constrained : Finset (Fin t))
    (eigPairs : List (EigenC × V)) (nm : ℕ) :
    bucklingPost t constrained eigPairs nm =
      ((((eigPairs.filter (fun p => isValidEig p.1)).insertionSort eigLe).take
          nm).map (fun p => p.1.re),
       (((eigPairs.filter (fun p => isValidEig p.1)).insertionSort eigLe).take
          nm).map (fun p => p.2),
       freeDofs t constrained) := by
  unfold bucklingPost
  by_cases he : (eigPairs.filter (fun p => isValidEig p.1)).isEmpty
  · have hnil : eigPairs.filter (fun p => isValidEig p.1) = [] :=
      List.isEmpty_iff.mp he
    simp [hnil, List.insertionSort]
  · simp [he]

/-- C1: for any free-DOF partition, any `eig` oracle output and any
`num_modes ≥ 1`, the returned eigenvalues are exactly the filtered
(real, finite, `> 1e-6`) oracle eigenvalues sorted ascending and truncated
to the first `num_modes`; the returned eigenvectors are the matching ones
under the same permutation and truncation; when nothing survives the filter
both results are empty (no error is possible); and the free-DOF index set is
returned alongside. -/
theorem buckling_post_spec {V : Type} (t : ℕ) (constrained : Finset (Fin t))
    (eigPairs : List (EigenC × V)) (nm : ℕ) (hnm : 1 ≤ nm) :
    (bucklingPost t constrained eigPairs nm).1 =
      (((eigPairs.filter (fun p => isValidEig p.1)).insertionSort eigLe).take
        nm).map (fun p => p.1.re)
  ∧ (bucklingPost t constrained eigPairs nm).2.1 =
      (((eigPairs.filter (fun p => isValidEig p.1)).insertionSort eigLe).take
        nm).map (fun p => p.2)
  ∧ List.Sorted (· ≤ ·) (bucklingPost t constrained eigPairs nm).1
  ∧ (∀ v ∈ (bucklingPost t constrained eigPairs nm).1,
      (1 : ℚ) / 1000000 < v ∧
        ∃ p ∈ eigPairs, p.1.re = v ∧ p.1.im = 0 ∧ p.1.finite = true)
  ∧ (bucklingPost t constrained eigPairs nm).1.length =
      min nm (eigPairs.filter (fun p => isValidEig p.1)).length
  ∧ (bucklingPost t constrained eigPairs nm).2.1.length =
      (bucklingPost t constrained eigPairs nm).1.length
  ∧ (eigPairs.filter (fun p => isValidEig p.1) = [] →
      (bucklingPost t constrained eigPairs nm).1 = [] ∧
        (bucklingPost t constrained eigPairs nm).2.1 = [])
  ∧ (bucklingPost t constrained eigPairs nm).2.2 = freeDofs t constrained := by
  have heq := bucklingPost_eq t constrained eigPairs nm
  have hsorted :
      List.Sorted eigLe
        ((eigPairs.filter (fun p => isValidEig p.1)).insertionSort eigLe) :=
    List.sorted_insertionSort eigLe _
  refine ⟨by rw [heq], by rw [heq], ?_, ?_, ?_, ?_, ?_, by rw [heq]⟩
  · rw [heq]
    have htake :
        List.Pairwise eigLe
          (((eigPairs.filter (fun p => isValidEig p.1)).insertionSort
            eigLe).take nm) :=
      List.Pairwise.sublist (List.take_sublist _ _) hsorted
    exact List.pairwise_map.mpr htake
  · intro v hv
    rw [heq] at hv
    obtain ⟨p, hp, rfl⟩ := List.mem_map.mp hv
    have hp2 : p ∈ (eigPairs.filter (fun p => isValidEig p.1)).insertionSort
        eigLe := List.mem_of_mem_take hp
    have hp3 : p ∈ eigPairs.filter (fun p => isValidEig p.1) :=
      (List.perm_insertionSort eigLe _).mem_iff.mp hp2
    obtain ⟨hmem, hvalid⟩ := List.mem_filter.mp hp3
    have hparts : (p.1.im = 0 ∧ (1 : ℚ) / 1000000 < p.1.re) ∧
        p.1.finite = true := by
      simpa [isValidEig] using hvalid
    exact ⟨hparts.1.2, p, hmem, rfl, hparts.1.1, hparts.2⟩
  · rw [heq]
    simp [List.length_take, List.length_insertionSort]
  · rw [heq]
    simp
  · intro hnil
    rw [heq]
    simp [hnil, List.insertionSort]

/-- Witness for `buckling_post_spec` on a concrete oracle output. -/
theorem buckling_post_spec_witness :
    1 ≤ 2 ∧
      (bucklingPost 1 (∅ : Finset (Fin 1))
        [(⟨2, 0, true⟩, (10 : ℕ)), (⟨1, 0, true⟩, 20), (⟨-3, 0, true⟩, 30),
          (⟨5, 1, true⟩, 40)] 2).1 =
      (((([(⟨2, 0, true⟩, (10 : ℕ)), (⟨1, 0, true⟩, 20), (⟨-3, 0, true⟩, 30),
          (⟨5, 1, true⟩, 40)]).filter
            (fun p => isValidEig p.1)).insertionSort eigLe).take 2).map
        (fun p => p.1.re) :=
  ⟨by norm_num,
   (buckling_post_spec 1 ∅
     [(⟨2, 0, true⟩, (10 : ℕ)), (⟨1, 0, true⟩, 20), (⟨-3, 0, true⟩, 30),
       (⟨5, 1, true⟩, 40)] 2 (by norm_num)).1⟩

/-! ## C5 and C6: local frame orthogonality -/

/-- The dot square is nonnegative. -/
theorem dot3_nonneg (v : Vec3) : 0 ≤ dot3 v v := by
  unfold dot3
  nlinarith [mul_self_nonneg (v 0), mul_self_nonneg (v 1), mul_self_nonneg (v 2)]

/-- The norm squares back to the dot product. -/
theorem norm3_mul_self (v : Vec3) : norm3 v * norm3 v = dot3 v v :=
  Real.mul_self_sqrt (dot3_nonneg v)

/-- Commutativity of the dot product. -/
theorem dot3_comm (a b : Vec3) : dot3 a b = dot3 b a := by
  unfold dot3
  ring

/-- Normalizing a vector of positive square length yields a unit vector. -/
theorem normalize_unit (v : Vec3) (h : 0 < dot3 v v) :
    dot3 (sdiv3 v (norm3 v)) (sdiv3 v (norm3 v)) = 1 := by
  have hcalc : dot3 (sdiv3 v (norm3 v)) (sdiv3 v (norm3 v)) =
      dot3 v v / (norm3 v * norm3 v) := by
    unfold dot3 sdiv3
    ring
  rw [hcalc, norm3_mul_self]
  exact div_self h.ne'

/-- Scalar division factors out of the dot product. -/
theorem dot3_sdiv_right (a b : Vec3) (c : ℝ) :
    dot3 a (sdiv3 b c) = dot3 a b / c := by
  unfold dot3 sdiv3
  ring

/-- A vector is orthogonal to any cross product having it as a factor. -/
theorem dot3_cross_factor (t x : Vec3) : dot3 x (cross3 t x) = 0 := by
  simp [dot3, cross3]
  ring

/-- The cross product is orthogonal to its first factor. -/
theorem dot3_cross_left (a b : Vec3) : dot3 (cross3 a b) a = 0 := by
  simp [dot3, cross3]
  ring

/-- The cross product is orthogonal to its second factor. -/
theorem dot3_cross_right (a b : Vec3) : dot3 (cross3 a b) b = 0 := by
  simp [dot3, cross3]
  ring

/-- Lagrange identity for the cross product square. -/
theorem dot3_cross_lagrange (a b : Vec3) :
    dot3 (cross3 a b) (cross3 a b) =
      dot3 a a * dot3 b b - dot3 a b * dot3 a b := by
  simp [dot3, cross3]
  ring

/-- A vector whose norm is not below the degeneracy threshold has positive
square length. -/
theorem dot3_pos_of_norm_not_lt (w : Vec3) (hw : ¬(norm3 w < yDegenTol)) :
    0 < dot3 w w := by
  have hge : yDegenTol ≤ norm3 w := not_lt.mp hw
  have htolpos : (0 : ℝ) < yDegenTol := by norm_num [yDegenTol]
  have h2 : yDegenTol * yDegenTol ≤ norm3 w * norm3 w :=
    mul_le_mul hge hge htolpos.le (htolpos.le.trans hge)
  rw [norm3_mul_self] at h2
  linarith [mul_pos htolpos htolpos]

/-- The provisional-then-fallback local y axis of the embedded
`direction_cosine_matrix` is always a cross product with the beam axis and
always has positive square length: whichever reference vector is selected
and whether or not the fallback fires, the unit beam axis leaves the chosen
cross product bounded away from zero. -/
theorem dcm_y1_cross_pos (c1 c2 : Vec3)
    (h : 0 < dot3 (vsub3 c2 c1) (vsub3 c2 c1)) :
    (∃ tv, dcm_y1 c1 c2 = cross3 tv (dcm_x c1 c2)) ∧
      0 < dot3 (dcm_y1 c1 c2) (dcm_y1 c1 c2) := by
  have hx : dot3 (dcm_x c1 c2) (dcm_x c1 c2) = 1 := normalize_unit _ h
  have hxc : dcm_x c1 c2 0 * dcm_x c1 c2 0 + dcm_x c1 c2 1 * dcm_x c1 c2 1 +
      dcm_x c1 c2 2 * dcm_x c1 c2 2 = 1 := hx
  constructor
  · unfold dcm_y1 dcm_y0
    split_ifs with hfb
    · exact ⟨![0, 1, 0], rfl⟩
    · exact ⟨dcm_temp c1 c2, rfl⟩
  · unfold dcm_y1 dcm_y0 dcm_temp
    split_ifs with hcond hfb1 hfb2
    · -- near-vertical axis, fallback fired
      obtain ⟨ha0, ha1⟩ := hcond
      rw [show allcloseAtol = 1 / 10 ^ 8 from rfl] at ha0 ha1
      have hb1 := abs_le.mp ha1
      simp only [dot3, cross3]
      simp
      nlinarith [hxc, hb1.1, hb1.2]
    · exact dot3_pos_of_norm_not_lt _ hfb1
    · -- generic axis but degenerate provisional y, fallback fired
      have htolpos : (0 : ℝ) < yDegenTol := by norm_num [yDegenTol]
      have hlt : dot3 (cross3 ![0, 0, 1] (dcm_x c1 c2))
          (cross3 ![0, 0, 1] (dcm_x c1 c2)) < yDegenTol ^ 2 :=
        (Real.sqrt_lt' htolpos).mp hfb2
      rw [show yDegenTol = 1 / 10 ^ 6 from rfl] at hlt
      simp only [dot3, cross3] at hlt
      simp at hlt
      simp only [dot3, cross3]
      simp
      nlinarith [hxc, hlt, mul_self_nonneg (dcm_x c1 c2 0),
        mul_self_nonneg (dcm_x c1 c2 1)]
    · exact dot3_pos_of_norm_not_lt _ hfb2

/-- The embedded direction-cosine matrix has orthonormal columns:
`R^T R = I` for any beam of positive length. -/
theorem direction_cosine_orthogonal (c1 c2 : Vec3)
    (h : 0 < norm3 (vsub3 c2 c1)) :
    (direction_cosine_matrix c1 c2).transpose * direction_cosine_matrix c1 c2 =
      1 := by
  have hd : 0 < dot3 (vsub3 c2 c1) (vsub3 c2 c1) := Real.sqrt_pos.mp h
  obtain ⟨⟨tv, htv⟩, hpos⟩ := dcm_y1_cross_pos c1 c2 hd
  have hx : dot3 (dcm_x c1 c2) (dcm_x c1 c2) = 1 := normalize_unit _ hd
  have hy : dot3 (dcm_y c1 c2) (dcm_y c1 c2) = 1 := normalize_unit _ hpos
  have hxy : dot3 (dcm_x c1 c2) (dcm_y c1 c2) = 0 := by
    unfold dcm_y
    rw [dot3_sdiv_right, htv, dot3_cross_factor, zero_div]
  have hxz : dot3 (dcm_x c1 c2) (dcm_z c1 c2) = 0 := by
    unfold dcm_z
    rw [dot3_comm]
    exact dot3_cross_left _ _
  have hyz : dot3 (dcm_y c1 c2) (dcm_z c1 c2) = 0 := by
    unfold dcm_z
    rw [dot3_comm]
    exact dot3_cross_right _ _
  have hz : dot3 (dcm_z c1 c2) (dcm_z c1 c2) = 1 := by
    unfold dcm_z
    rw [dot3_cross_lagrange, hx, hy, hxy]
    ring
  have hyx : dot3 (dcm_y c1 c2) (dcm_x c1 c2) = 0 := by
    rw [dot3_comm]
    exact hxy
  have hzx : dot3 (dcm_z c1 c2) (dcm_x c1 c2) = 0 := by
    rw [dot3_comm]
    exact hxz
  have hzy : dot3 (dcm_z c1 c2) (dcm_y c1 c2) = 0 := by
    rw [dot3_comm]
    exact hyz
  have ex : dcm_x c1 c2 0 * dcm_x c1 c2 0 + dcm_x c1 c2 1 * dcm_x c1 c2 1 +
      dcm_x c1 c2 2 * dcm_x c1 c2 2 = 1 := hx
  have ey : dcm_y c1 c2 0 * dcm_y c1 c2 0 + dcm_y c1 c2 1 * dcm_y c1 c2 1 +
      dcm_y c1 c2 2 * dcm_y c1 c2 2 = 1 := hy
  have ez : dcm_z c1 c2 0 * dcm_z c1 c2 0 + dcm_z c1 c2 1 * dcm_z c1 c2 1 +
      dcm_z c1 c2 2 * dcm_z c1 c2 2 = 1 := hz
  have exy : dcm_x c1 c2 0 * dcm_y c1 c2 0 + dcm_x c1 c2 1 * dcm_y c1 c2 1 +
      dcm_x c1 c2 2 * dcm_y c1 c2 2 = 0 := hxy
  have exz : dcm_x c1 c2 0 * dcm_z c1 c2 0 + dcm_x c1 c2 1 * dcm_z c1 c2 1 +
      dcm_x c1 c2 2 * dcm_z c1 c2 2 = 0 := hxz
  have eyz : dcm_y c1 c2 0 * dcm_z c1 c2 0 + dcm_y c1 c2 1 * dcm_z c1 c2 1 +
      dcm_y c1 c2 2 * dcm_z c1 c2 2 = 0 := hyz
  have eyx : dcm_y c1 c2 0 * dcm_x c1 c2 0 + dcm_y c1 c2 1 * dcm_x c1 c2 1 +
      dcm_y c1 c2 2 * dcm_x c1 c2 2 = 0 := hyx
  have ezx : dcm_z c1 c2 0 * dcm_x c1 c2 0 + dcm_z c1 c2 1 * dcm_x c1 c2 1 +
      dcm_z c1 c2 2 * dcm_x c1 c2 2 = 0 := hzx
  have ezy : dcm_z c1 c2 0 * dcm_y c1 c2 0 + dcm_z c1 c2 1 * dcm_y c1 c2 1 +
      dcm_z c1 c2 2 * dcm_y c1 c2 2 = 0 := hzy
  ext i j
  fin_cases i <;> fin_cases j <;>
    simp [Matrix.mul_apply, direction_cosine_matrix, Fin.sum_univ_three,
      Matrix.transpose_apply, Matrix.one_apply] <;>
    linarith [ex, ey, ez, exy, exz, eyz, eyx, ezx, ezy]

/-- The per-node 7x7 transformation block is orthogonal whenever the rotation
matrix is. -/
theorem T_node_orthogonal (R : Matrix (Fin 3) (Fin 3) ℝ)
    (h1 : R.transpose * R = 1) : T_node R * (T_node R).transpose = 1 := by
  have hR : R.transpose * R.transpose.transpose = 1 := by
    rw [Matrix.transpose_transpose]
    exact h1
  unfold T_node
  rw [Matrix.reindex_apply, Matrix.transpose_submatrix,
    Matrix.submatrix_mul_equiv, Matrix.fromBlocks_transpose,
    Matrix.fromBlocks_transpose, Matrix.fromBlocks_multiply,
    Matrix.fromBlocks_multiply]
  simp [h1, hR, Matrix.fromBlocks_one, Matrix.submatrix_one_equiv]

/-- C5: for every beam element with positive length the embedded 14x14
transformation matrix satisfies `T * T^T = I`. -/
theorem transformation_matrix_orthogonal (c1 c2 : Vec3)
    (h : 0 < beamLength c1 c2) :
    transformation_matrix c1 c2 * (transformation_matrix c1 c2).transpose =
      1 := by
  have hRtR := direction_cosine_orthogonal c1 c2 h
  have hT := T_node_orthogonal _ hRtR
  unfold transformation_matrix
  rw [Matrix.reindex_apply, Matrix.transpose_submatrix,
    Matrix.submatrix_mul_equiv, Matrix.fromBlocks_transpose,
    Matrix.fromBlocks_multiply]
  simp [hT, Matrix.fromBlocks_one, Matrix.submatrix_one_equiv]

/-- Witness for `transformation_matrix_orthogonal` on a diagonal element. -/
theorem transformation_matrix_orthogonal_witness :
    0 < beamLength ![0, 0, 0] ![1, 1, 1] ∧
      transformation_matrix ![0, 0, 0] ![1, 1, 1] *
        (transformation_matrix ![0, 0, 0] ![1, 1, 1]).transpose = 1 := by
  have hlen : 0 < beamLength ![0, 0, 0] ![1, 1, 1] := by
    unfold beamLength norm3
    apply Real.sqrt_pos.mpr
    norm_num [dot3, vsub3]
  exact ⟨hlen, transformation_matrix_orthogonal ![0, 0, 0] ![1, 1, 1] hlen⟩

/-- C6: for a beam whose axis from node 1 to node 2 points exactly along the
positive global x axis, the embedded transformation matrix is the 14x14
identity. -/
theorem transformation_matrix_xaxis_identity (c1 c2 : Vec3)
    (h0 : c1 0 < c2 0) (h1 : c2 1 = c1 1) (h2 : c2 2 = c1 2) :
    transformation_matrix c1 c2 = 1 := by
  have hppos : 0 < c2 0 - c1 0 := by linarith
  have hd1 : vsub3 c2 c1 1 = 0 := by
    unfold vsub3
    rw [h1]
    ring
  have hd2 : vsub3 c2 c1 2 = 0 := by
    unfold vsub3
    rw [h2]
    ring
  have hdot : dot3 (vsub3 c2 c1) (vsub3 c2 c1) =
      (c2 0 - c1 0) * (c2 0 - c1 0) := by
    unfold dot3
    rw [hd1, hd2]
    unfold vsub3
    ring
  have hnorm : norm3 (vsub3 c2 c1) = c2 0 - c1 0 := by
    unfold norm3
    rw [hdot]
    exact Real.sqrt_mul_self hppos.le
  have hx0 : dcm_x c1 c2 0 = 1 := by
    unfold dcm_x sdiv3
    rw [hnorm]
    unfold vsub3
    exact div_self hppos.ne'
  have hx1 : dcm_x c1 c2 1 = 0 := by
    unfold dcm_x sdiv3
    rw [hd1, hnorm, zero_div]
  have hx2 : dcm_x c1 c2 2 = 0 := by
    unfold dcm_x sdiv3
    rw [hd2, hnorm, zero_div]
  have htemp : dcm_temp c1 c2 = ![0, 0, 1] := by
    unfold dcm_temp
    rw [if_neg]
    intro hc
    rw [hx0] at hc
    have := hc.1
    rw [show allcloseAtol = 1 / 10 ^ 8 from rfl] at this
    norm_num at this
  have hy0 : dcm_y0 c1 c2 = ![0, 1, 0] := by
    unfold dcm_y0
    rw [htemp]
    funext i
    fin_cases i <;> simp [cross3, hx0, hx1, hx2]
  have hone : norm3 (![0, 1, 0] : Vec3) = 1 := by
    unfold norm3
    rw [show dot3 (![0, 1, 0] : Vec3) ![0, 1, 0] = 1 by norm_num [dot3]]
    exact Real.sqrt_one
  have hy1 : dcm_y1 c1 c2 = ![0, 1, 0] := by
    unfold dcm_y1
    rw [hy0, hone, if_neg]
    rw [show yDegenTol = 1 / 10 ^ 6 from rfl]
    norm_num
  have hy : dcm_y c1 c2 = ![0, 1, 0] := by
    unfold dcm_y
    rw [hy1, hone]
    funext i
    fin_cases i <;> simp [sdiv3]
  have hz : dcm_z c1 c2 = ![0, 0, 1] := by
    unfold dcm_z
    rw [hy]
    funext i
    fin_cases i <;> simp [cross3, hx0, hx1, hx2]
  have hR : direction_cosine_matrix c1 c2 = 1 := by
    unfold direction_cosine_matrix
    ext i j
    fin_cases i <;> fin_cases j <;>
      simp [hx0, hx1, hx2, hy, hz, Matrix.one_apply]
  have hTn : T_node 1 = 1 := by
    unfold T_node
    rw [Matrix.transpose_one, Matrix.fromBlocks_one, Matrix.fromBlocks_one,
      Matrix.reindex_apply, Matrix.submatrix_one_equiv]
  unfold transformation_matrix
  rw [hR, hTn, Matrix.fromBlocks_one, Matrix.reindex_apply,
    Matrix.submatrix_one_equiv]

/-- Witness for `transformation_matrix_xaxis_identity`. -/
theorem transformation_matrix_xaxis_identity_witness :
    (![0, 0, 0] : Vec3) 0 < (![2, 0, 0] : Vec3) 0 ∧
      transformation_matrix ![0, 0, 0] ![2, 0, 0] = 1 := by
  have e0 : (![0, 0, 0] : Vec3) 0 < (![2, 0, 0] : Vec3) 0 := by norm_num
  have e1 : (![2, 0, 0] : Vec3) 1 = (![0, 0, 0] : Vec3) 1 := by norm_num
  have e2 : (![2, 0, 0] : Vec3) 2 = (![0, 0, 0] : Vec3) 2 := by norm_num
  exact ⟨e0, transformation_matrix_xaxis_identity ![0, 0, 0] ![2, 0, 0] e0 e1 e2⟩

/-! ## C9: zero-length elements -/

/-- C9 (amended): a zero-length beam is not rejected anywhere: the
constructor stores its arguments without any validation and a stiffness
matrix request returns normally (numpy float division by zero warns and
produces non-finite entries instead of raising), so no `DegenerateElement`
error exists in the code. -/
theorem beam_degenerate_silent (c1 c2 : Vec3) (E G A Iy Iz J Cw : ℝ)
    (h : beamLength c1 c2 = 0) :
    isOkE (Beam3D.init c1 c2 E G A Iy Iz J Cw) = true ∧
      isOkE (Beam3D.localStiffnessCall ⟨c1, c2, E, G, A, Iy, Iz, J, Cw⟩) =
        true :=
  ⟨rfl, rfl⟩

/-- C9 counterexample: the coincident-node beam has zero length, yet both
its construction and its local stiffness request return normally instead of
failing with a `DegenerateElement` error. -/
theorem beam_degenerate_counterexample :
    beamLength ![0, 0, 0] ![0, 0, 0] = 0 ∧
      isOkE (Beam3D.init ![0, 0, 0] ![0, 0, 0] 1 1 1 1 1 1 1) = true ∧
      isOkE (Beam3D.localStiffnessCall
        ⟨![0, 0, 0], ![0, 0, 0], 1, 1, 1, 1, 1, 1, 1⟩) = true := by
  refine ⟨?_, rfl, rfl⟩
  unfold beamLength norm3
  rw [show dot3 (vsub3 ![0, 0, 0] ![0, 0, 0]) (vsub3 ![0, 0, 0] ![0, 0, 0]) =
    0 by norm_num [dot3, vsub3]]
  exact Real.sqrt_zero

/-- Witness for `beam_degenerate_silent` at a nonzero coincident point. -/
theorem beam_degenerate_silent_witness :
    beamLength ![1, 2, 3] ![1, 2, 3] = 0 ∧
      isOkE (Beam3D.init ![1, 2, 3] ![1, 2, 3] 2 1 1 1 1 1 1) = true := by
  have hlen : beamLength ![1, 2, 3] ![1, 2, 3] = 0 := by
    unfold beamLength norm3
    rw [show dot3 (vsub3 ![1, 2, 3] ![1, 2, 3]) (vsub3 ![1, 2, 3] ![1, 2, 3]) =
      0 by norm_num [dot3, vsub3]]
    exact Real.sqrt_zero
  exact ⟨hlen, (beam_degenerate_silent ![1, 2, 3] ![1, 2, 3] 2 1 1 1 1 1 1
    hlen).1⟩
